import Mathlib

/-!
# Flip 7 game engine: formal model

A shallow embedding of the Flip 7 card-game engine (Go sources): the card
model, the deck with its discard pile and reshuffle, the per-player state
machine (`BasePlayer`), the computer-player decision strategies, and the
round orchestrator (`Game`) including the recursive action-card resolution
(Freeze / Flip Three / Second Chance) and the card-conservation check of
`Game.nextRound`.

Randomness (the deck shuffle, `rand.Intn`) and decision input are modelled
as explicit function parameters ("oracles"); a Go `panic` is modelled as
`none` / `.fatal`; a returned Go `error` is modelled as an explicit result
constructor.
-/

namespace Flip7

/-! ## Card model (card.go) -/

inductive CardType where
  | NumberCard
  | ActionCard
  | ModifierCard
deriving DecidableEq, Repr

inductive ActionType where
  | Freeze
  | FlipThree
  | SecondChance
deriving DecidableEq, Repr

inductive ModifierType where
  | Plus2
  | Plus4
  | Plus6
  | Plus8
  | Plus10
  | Multiply2
deriving DecidableEq, Repr

/-- The Go `Card` struct: a type tag plus the three discriminant fields
(unused fields keep their Go zero values, as in the source constructors). -/
structure Card where
  ctype : CardType
  Value : Int
  Action : ActionType
  Modifier : ModifierType
deriving DecidableEq, Repr

/-- `NewNumberCard` from the source: only `Type` and `Value` are set. -/
def NewNumberCard (value : Int) : Card :=
  { ctype := .NumberCard, Value := value, Action := .Freeze, Modifier := .Plus2 }

/-- `NewActionCard` from the source. -/
def NewActionCard (action : ActionType) : Card :=
  { ctype := .ActionCard, Value := 0, Action := action, Modifier := .Plus2 }

/-- `NewModifierCard` from the source. -/
def NewModifierCard (modifier : ModifierType) : Card :=
  { ctype := .ModifierCard, Value := 0, Action := .Freeze, Modifier := modifier }

/-- `Card.GetPoints` from the source (action cards fall through to 0). -/
def Card.GetPoints (c : Card) : Int :=
  match c.ctype with
  | .NumberCard => c.Value
  | .ModifierCard =>
    match c.Modifier with
    | .Plus2 => 2
    | .Plus4 => 4
    | .Plus6 => 6
    | .Plus8 => 8
    | .Plus10 => 10
    | .Multiply2 => 0
  | .ActionCard => 0

/-- `Card.IsNumberCard`. -/
def Card.IsNumberCard (c : Card) : Bool := c.ctype == .NumberCard

/-- `Card.IsActionCard`. -/
def Card.IsActionCard (c : Card) : Bool := c.ctype == .ActionCard

/-- `Card.IsModifierCard`. -/
def Card.IsModifierCard (c : Card) : Bool := c.ctype == .ModifierCard

/-! ## Deck (deck.go, the variant with `OriginalTotal` and
reshuffle-on-empty draw; `debugMode` is off, so the debug draw path is not
taken). The random shuffle is modelled as an explicit function
`shuffle : List Card → List Card`; the real implementation is a uniform
random permutation, captured by the predicate `ShuffleOK`. -/

structure Deck where
  cards : List Card
  discards : List Card
  OriginalTotal : Nat
deriving DecidableEq, Repr

/-- The shuffle used by the Go deck is a permutation of its input. -/
def ShuffleOK (shuffle : List Card → List Card) : Prop :=
  ∀ l : List Card, (shuffle l).Perm l

/-- `Deck.createCards`: number cards (value 0 has one copy, value `v ≥ 1`
has `v` copies, in increasing value order), then the six modifier cards,
then three copies each of the action cards (interleaved as in the loop). -/
def createCards : List Card :=
  ((List.range 13).map fun v =>
      List.replicate (if v = 0 then 1 else v) (NewNumberCard (Int.ofNat v))).flatten
    ++ [NewModifierCard .Plus2, NewModifierCard .Plus4, NewModifierCard .Plus6,
        NewModifierCard .Plus8, NewModifierCard .Plus10, NewModifierCard .Multiply2]
    ++ ((List.range 3).map fun _ =>
      [NewActionCard .Freeze, NewActionCard .FlipThree, NewActionCard .SecondChance]).flatten

/-- `NewDeck`: create the cards, shuffle, and remember the total. -/
def NewDeck (shuffle : List Card → List Card) : Deck :=
  let cards := shuffle createCards
  { cards := cards, discards := [], OriginalTotal := cards.length }

/-- `Deck.Reshuffle`: move the discards back and shuffle everything. -/
def Deck.Reshuffle (shuffle : List Card → List Card) (d : Deck) : Deck :=
  { cards := shuffle (d.cards ++ d.discards), discards := [],
    OriginalTotal := d.OriginalTotal }

/-- `Deck.DrawCard` (later variant): if the draw pile is empty, reshuffle
first; if it is still empty, panic (`none`); otherwise remove and return
the top (last) card. -/
def Deck.DrawCard (shuffle : List Card → List Card) (d : Deck) :
    Option (Card × Deck) :=
  let d1 := if d.cards.isEmpty then d.Reshuffle shuffle else d
  match d1.cards.getLast? with
  | none => none
  | some c => some (c, { d1 with cards := d1.cards.dropLast })

/-- `Deck.DiscardCard` appends to the discard pile. -/
def Deck.DiscardCard (d : Deck) (c : Card) : Deck :=
  { d with discards := d.discards ++ [c] }

/-- `Deck.CardsLeft`. -/
def Deck.CardsLeft (d : Deck) : Nat := d.cards.length

/-- `Deck.TotalCards`. -/
def Deck.TotalCards (d : Deck) : Nat := d.cards.length + d.discards.length

/-! ## Player state machine (player.go, `BasePlayer`) -/

inductive PlayerState where
  | Active
  | Stayed
  | Busted
deriving DecidableEq, Repr

structure BasePlayer where
  Name : String
  TotalScore : Int
  NumberCards : List Card
  ModifierCards : List Card
  ActionCards : List Card
  State : PlayerState
  SecondChance : Bool
deriving DecidableEq, Repr

/-- `BasePlayer.Init` (fresh players have Go zero values for the
remaining fields). -/
def BasePlayer.Init (name : String) : BasePlayer :=
  { Name := name, TotalScore := 0, NumberCards := [], ModifierCards := [],
    ActionCards := [], State := .Active, SecondChance := false }

def BasePlayer.GetName (p : BasePlayer) : String := p.Name

def BasePlayer.HasSecondChance (p : BasePlayer) : Bool := p.SecondChance

def BasePlayer.GetTotalScore (p : BasePlayer) : Int := p.TotalScore

def BasePlayer.GetHand (p : BasePlayer) : List Card :=
  p.NumberCards ++ p.ModifierCards ++ p.ActionCards

/-- `BasePlayer.Stay`: panics (`none`) unless the player is Active. -/
def BasePlayer.Stay (p : BasePlayer) : Option BasePlayer :=
  if p.State = .Active then some { p with State := .Stayed } else none

/-- `BasePlayer.Bust`: panics (`none`) unless the player is Active. -/
def BasePlayer.Bust (p : BasePlayer) : Option BasePlayer :=
  if p.State = .Active then some { p with State := .Busted } else none

def BasePlayer.IsActive (p : BasePlayer) : Bool := p.State == .Active

def BasePlayer.HasCards (p : BasePlayer) : Bool := p.NumberCards.length > 0

/-- The signalled result of `BasePlayer.AddCard`: `ok` for a nil error,
otherwise the Go error string (`bust:v`, `duplicate_with_second_chance:v`,
`flip7`, `second_chance_duplicate`). -/
inductive AddCardResult where
  | ok
  | bust (value : Int)
  | duplicateWithSecondChance (value : Int)
  | flip7
  | secondChanceDuplicate
deriving DecidableEq, Repr

/-- `BasePlayer.AddCard`. `none` models a panic (from `Bust`/`Stay` on a
non-Active player). -/
def BasePlayer.AddCard (p : BasePlayer) (card : Card) :
    Option (BasePlayer × AddCardResult) :=
  match card.ctype with
  | .NumberCard =>
    if p.NumberCards.any fun existing => existing.Value == card.Value then
      if p.HasSecondChance then
        some (p, .duplicateWithSecondChance card.Value)
      else
        match p.Bust with
        | none => none
        | some p1 => some (p1, .bust card.Value)
    else
      let p1 := { p with NumberCards := p.NumberCards ++ [card] }
      if p1.NumberCards.length = 7 then
        match p1.Stay with
        | none => none
        | some p2 => some (p2, .flip7)
      else
        some (p1, .ok)
  | .ModifierCard =>
    some ({ p with ModifierCards := p.ModifierCards ++ [card] }, .ok)
  | .ActionCard =>
    if card.Action = .SecondChance then
      if p.HasSecondChance then
        some (p, .secondChanceDuplicate)
      else
        some ({ p with SecondChance := true,
                       ActionCards := p.ActionCards ++ [card] }, .ok)
    else
      some ({ p with ActionCards := p.ActionCards ++ [card] }, .ok)

/-- Remove the first Second-Chance card from an action-card list. -/
def removeFirstSecondChance : List Card → Option (Card × List Card)
  | [] => none
  | c :: rest =>
    if c.Action = .SecondChance then some (c, rest)
    else
      match removeFirstSecondChance rest with
      | none => none
      | some (sc, rest1) => some (sc, c :: rest1)

/-- `BasePlayer.UseSecondChance`: clears the flag and removes (returning)
the held Second-Chance card; panics (`none`) if there is none. -/
def BasePlayer.UseSecondChance (p : BasePlayer) : Option (BasePlayer × Card) :=
  if p.HasSecondChance then
    match removeFirstSecondChance p.ActionCards with
    | none => none
    | some (sc, rest) =>
      some ({ p with SecondChance := false, ActionCards := rest }, sc)
  else none

/-- `BasePlayer.CalculateRoundScore`: busted → 0; otherwise the number-card
sum (the accumulation loop), doubled if a ×2 modifier is present (the break
makes it a single doubling), plus the points of the non-×2 modifiers, plus
15 if the player holds 7 number cards. -/
def BasePlayer.CalculateRoundScore (p : BasePlayer) : Int :=
  if p.State = .Busted then 0
  else
    let numberTotal := (p.NumberCards.map fun c => c.Value).sum
    let numberTotal1 :=
      if p.ModifierCards.any fun c => c.Modifier == .Multiply2 then
        numberTotal * 2
      else numberTotal
    let modifierTotal :=
      ((p.ModifierCards.filter fun c => c.Modifier != .Multiply2).map
        Card.GetPoints).sum
    let total := numberTotal1 + modifierTotal
    if p.NumberCards.length = 7 then total + 15 else total

/-- `BasePlayer.AddToTotalScore`. -/
def BasePlayer.AddToTotalScore (p : BasePlayer) : BasePlayer :=
  { p with TotalScore := p.TotalScore + p.CalculateRoundScore }

/-- `BasePlayer.ResetForNewRound`: returns the reset player and the
discarded hand. -/
def BasePlayer.ResetForNewRound (p : BasePlayer) : BasePlayer × List Card :=
  ({ p with NumberCards := [], ModifierCards := [], ActionCards := [],
            State := .Active, SecondChance := false },
   p.GetHand)

/-! ## GameState and computer-player strategies (computer_player.go).
Go compares players by pointer identity; references are modelled as a
numeric id paired with the player state. -/

structure GameState where
  Round : Int
  Players : List (Nat × BasePlayer)
  ActivePlayers : List (Nat × BasePlayer)
  CurrentLeader : Option (Nat × BasePlayer)
  CardsInDeck : List Card

/-- Loop body of `TargetLeaderStrategy`: skip Second-Chance holders for a
Second-Chance handoff, skip the caller, and keep the player with the
highest total-plus-round score seen so far. -/
def targetLeaderStep (self : Nat × BasePlayer) (actionType : ActionType)
    (acc : Option (Nat × BasePlayer) × Int) (player : Nat × BasePlayer) :
    Option (Nat × BasePlayer) × Int :=
  if (actionType == .SecondChance) && player.2.HasSecondChance then acc
  else if player.1 == self.1 then acc
  else
    let playerScore := player.2.GetTotalScore + player.2.CalculateRoundScore
    if playerScore > acc.2 then (some player, playerScore) else acc

/-- `TargetLeaderStrategy`: scan the active players with
`targetLeaderStep`, starting from a nil leader with score 0; fall back to
the caller when no leader was recorded. -/
def TargetLeaderStrategy (self : Nat × BasePlayer) (gameState : GameState)
    (actionType : ActionType) : Nat × BasePlayer :=
  let result := gameState.ActivePlayers.foldl (targetLeaderStep self actionType)
    ((none : Option (Nat × BasePlayer)), (0 : Int))
  match result.1 with
  | none => self
  | some leader => leader

/-- `TargetRandomStrategy`: collect the active players other than the
caller (skipping Second-Chance holders for a Second-Chance handoff) and
pick one with `rand.Intn`, modelled by the parameter `randIntn`. -/
def TargetRandomStrategy (randIntn : Nat → Nat) (self : Nat × BasePlayer)
    (gameState : GameState) (actionType : ActionType) : Nat × BasePlayer :=
  let activePlayers := gameState.Players.filter fun player =>
    !((actionType == .SecondChance) && player.2.HasSecondChance)
      && player.2.IsActive && (player.1 != self.1)
  if activePlayers.length = 0 then self
  else activePlayers.getD (randIntn activePlayers.length) self

/-- The `ComputerPlayer` struct: the embedded `BasePlayer` plus the three
strategy function fields. -/
structure ComputerPlayer where
  base : BasePlayer
  HitOrStayStrategy : BasePlayer → GameState → Bool
  ActionTargetStrategy :
    (Nat × BasePlayer) → GameState → ActionType → (Nat × BasePlayer)
  PositiveActionTargetStrategy :
    (Nat × BasePlayer) → GameState → ActionType → (Nat × BasePlayer)

/-- `ComputerPlayer.MakeHitStayDecision`: always hit while holding a
Second Chance, otherwise defer to the configured strategy. -/
def ComputerPlayer.MakeHitStayDecision (p : ComputerPlayer)
    (gameState : GameState) : Bool :=
  if p.base.HasSecondChance then true
  else p.HitOrStayStrategy p.base gameState

/-! ## Round orchestrator (game.go, the variant with the card-conservation
check in `nextRound`). Players live in a list; Go player pointers are list
indices. Target selection and the shuffle are oracle parameters. -/

structure Game where
  players : List BasePlayer
  deck : Deck
  round : Int
  dealerIdx : Nat
deriving DecidableEq, Repr

/-- The engine's external inputs: the shuffle, and the two target-choice
functions (`ChooseActionTarget` / `ChoosePositiveActionTarget`, whose
human-backed variants can fail on input error, hence `Option`). -/
structure Oracles where
  shuffle : List Card → List Card
  chooseTarget : Game → Nat → ActionType → Option Nat
  choosePositive : Game → Nat → ActionType → Option Nat

def Game.player (g : Game) (i : Nat) : BasePlayer :=
  g.players.getD i (BasePlayer.Init "")

def Game.updatePlayer (g : Game) (i : Nat) (p : BasePlayer) : Game :=
  { g with players := g.players.set i p }

def Game.discard (g : Game) (c : Card) : Game :=
  { g with deck := g.deck.DiscardCard c }

def Game.drawCard (o : Oracles) (g : Game) : Option (Card × Game) :=
  match g.deck.DrawCard o.shuffle with
  | none => none
  | some (c, d) => some (c, { g with deck := d })

/-- The conserved quantity: draw pile + discard pile + all hands. -/
def Game.totalCards (g : Game) : Nat :=
  g.deck.cards.length + g.deck.discards.length
    + (g.players.map fun p => p.GetHand.length).sum

/-- The Go error values that flow through the orchestrator. -/
inductive GErr where
  | flip7
  | bust (v : Int)
  | dupWithSC (v : Int)
  | scDuplicate
  | inputFailed
deriving DecidableEq, Repr

def AddCardResult.toErr : AddCardResult → GErr
  | .ok => .inputFailed
  | .bust v => .bust v
  | .duplicateWithSecondChance v => .dupWithSC v
  | .flip7 => .flip7
  | .secondChanceDuplicate => .scDuplicate

/-- Orchestrator step outcome: normal return, a returned Go `error`
(which aborts the game loop), or a panic. -/
inductive GRes where
  | ok (g : Game)
  | err (g : Game) (e : GErr)
  | fatal

/-- `Game.endRoundForFlip7`: every other still-Active player stays. -/
def Game.endRoundForFlip7 (g : Game) (k : Nat) : Game :=
  { g with players := g.players.mapIdx fun j p =>
      if j ≠ k ∧ p.State = .Active then { p with State := .Stayed } else p }

/-- `Game.handleCardAddError`: flip7 ends the round for the others;
duplicate-with-second-chance consumes the Second Chance and discards both
cards; bust discards the duplicate; anything else is returned as an
error. -/
def Game.handleCardAddError (g : Game) (i : Nat) (card : Card)
    (r : AddCardResult) : GRes :=
  match r with
  | .flip7 => .ok (g.endRoundForFlip7 i)
  | .duplicateWithSecondChance _ =>
    match (g.player i).UseSecondChance with
    | none => .fatal
    | some (p1, sc) =>
      .ok (((g.updatePlayer i p1).discard sc).discard card)
  | .bust _ => .ok (g.discard card)
  | r1 => .err g r1.toErr

/-- `Game.handleFreezeCard`: choose a target (discarding the card if the
choice fails), force it to stay, discard the card. -/
def Game.handleFreezeCard (o : Oracles) (g : Game) (i : Nat) (card : Card) :
    GRes :=
  match o.chooseTarget g i .Freeze with
  | none => .err (g.discard card) .inputFailed
  | some t =>
    match (g.player t).Stay with
    | none => .fatal
    | some p1 => .ok ((g.updatePlayer t p1).discard card)

/-- `Game.handleSecondChanceCard`: give it to the drawer if they lack one;
otherwise hand it to the chosen positive target, discarding the card (and
returning the error) whenever that fails. -/
def Game.handleSecondChanceCard (o : Oracles) (g : Game) (i : Nat)
    (card : Card) : GRes :=
  if (g.player i).HasSecondChance then
    match o.choosePositive g i .SecondChance with
    | none => .err (g.discard card) .inputFailed
    | some t =>
      match (g.player t).AddCard card with
      | none => .fatal
      | some (p1, r) =>
        if r = .ok then .ok (g.updatePlayer t p1)
        else .err ((g.updatePlayer t p1).discard card) r.toErr
  else
    match (g.player i).AddCard card with
    | none => .fatal
    | some (p1, r) =>
      if r = .ok then .ok (g.updatePlayer i p1)
      else .err ((g.updatePlayer i p1).discard card) r.toErr

/-- Call descriptor for the mutually recursive action-card resolution:
`act` is `handleActionCard`, `loop` is the three-draw loop of
`handleFlipThreeCard` with the remaining iteration count. -/
inductive HacCall where
  | act (g : Game) (i : Nat) (c : Card)
  | loop (g : Game) (t : Nat) (k : Nat)

/-- `Game.handleActionCard` and the `handleFlipThreeCard` draw loop, with
explicit fuel (the recursion is bounded by the deck in the source; fuel
exhaustion is `.fatal`). In the loop: a nested error that is flip7 ends
the round and breaks; any other nested error discards the drawn card again
and returns (leaving the triggering Flip-Three card in flight); a handled
add-error breaks; after the loop the Flip-Three card is discarded. -/
def hacRun (o : Oracles) : Nat → HacCall → GRes
  | 0, _ => .fatal
  | fuel + 1, .act g i card =>
    match card.Action with
    | .Freeze => Game.handleFreezeCard o g i card
    | .SecondChance => Game.handleSecondChanceCard o g i card
    | .FlipThree =>
      match o.chooseTarget g i .FlipThree with
      | none => .err (g.discard card) .inputFailed
      | some t =>
        match hacRun o fuel (.loop g t 3) with
        | .fatal => .fatal
        | .err g1 e => .err g1 e
        | .ok g1 => .ok (g1.discard card)
  | _ + 1, .loop g _ 0 => .ok g
  | fuel + 1, .loop g t (k + 1) =>
    if (g.player t).IsActive then
      match Game.drawCard o g with
      | none => .fatal
      | some (c, g1) =>
        if c.IsActionCard then
          match hacRun o fuel (.act g1 t c) with
          | .fatal => .fatal
          | .err g2 e =>
            if e = .flip7 then .ok (g2.endRoundForFlip7 t)
            else .err (g2.discard c) e
          | .ok g2 => hacRun o fuel (.loop g2 t k)
        else
          match (g1.player t).AddCard c with
          | none => .fatal
          | some (p1, r) =>
            if r = .ok then hacRun o fuel (.loop (g1.updatePlayer t p1) t k)
            else
              match (g1.updatePlayer t p1).handleCardAddError t c r with
              | .fatal => .fatal
              | .err g2 e => .err g2 e
              | .ok g2 => .ok g2
    else .ok g

/-- `Game.handleActionCard` proper. -/
def Game.handleActionCard (o : Oracles) (fuel : Nat) (g : Game) (i : Nat)
    (card : Card) : GRes :=
  hacRun o fuel (.act g i card)

/-- `Game.playerHit`: draw a card; action cards go to the resolution
protocol, others to `AddCard` with `handleCardAddError` on failure. -/
def Game.playerHit (o : Oracles) (fuel : Nat) (g : Game) (i : Nat) : GRes :=
  match Game.drawCard o g with
  | none => .fatal
  | some (card, g1) =>
    if card.IsActionCard then hacRun o fuel (.act g1 i card)
    else
      match (g1.player i).AddCard card with
      | none => .fatal
      | some (p1, r) =>
        if r = .ok then .ok (g1.updatePlayer i p1)
        else (g1.updatePlayer i p1).handleCardAddError i card r

/-- `Game.playerStay` (`CalculateRoundScore` is pure and changes
nothing). -/
def Game.playerStay (g : Game) (i : Nat) : Option Game :=
  match (g.player i).Stay with
  | none => none
  | some p1 => some (g.updatePlayer i p1)

/-- The player-reset loop of `Game.nextRound`: reset every player and
discard every returned hand. -/
def Game.resetAllPlayers (g : Game) : Game :=
  let pairs := g.players.map BasePlayer.ResetForNewRound
  { g with players := pairs.map Prod.fst,
           deck := { g.deck with
             discards := g.deck.discards ++ (pairs.map Prod.snd).flatten } }

/-- `Game.nextRound`: advance round and dealer, reset the players into the
discard pile, then recount every card; a mismatch with the deck's
`OriginalTotal` is the fatal `CardConservationViolation` panic (`none`). -/
def Game.nextRound (g : Game) : Option Game :=
  let g1 := { g with round := g.round + 1,
                     dealerIdx := (g.dealerIdx + 1) % g.players.length }
  let g2 := g1.resetAllPlayers
  let totalCards := g2.deck.CardsLeft + g2.deck.discards.length
    + (g2.players.map fun p => p.GetHand.length).sum
  if totalCards ≠ g2.deck.OriginalTotal then none else some g2

/-- A fresh game after setup: `NewGame` plus one `Init` player per
configured name. -/
def NewGameWith (o : Oracles) (names : List String) : Game :=
  { players := names.map BasePlayer.Init, deck := NewDeck o.shuffle,
    round := 1, dealerIdx := 0 }

/-- Validity of the oracles: the shuffle permutes, and chosen targets are
real players (Go returns pointers into the player slice). -/
structure OraclesOK (o : Oracles) : Prop where
  shuffle_perm : ∀ l, (o.shuffle l).Perm l
  chooseTarget_lt : ∀ g i a t, o.chooseTarget g i a = some t →
    t < g.players.length
  choosePositive_lt : ∀ g i a t, o.choosePositive g i a = some t →
    t < g.players.length

/-- Reachable engine states: a fresh game, then hits (covering initial
deals, voluntary hits, and all action-card cascades), stays, and round
resets; an error return or a panic ends the program, so only `.ok` /
`some` outcomes continue. -/
inductive Reachable (o : Oracles) : Game → Prop where
  | init (names : List String) : Reachable o (NewGameWith o names)
  | hit {g g1 : Game} (i fuel : Nat) : Reachable o g →
      i < g.players.length → Game.playerHit o fuel g i = .ok g1 →
      Reachable o g1
  | stay {g g1 : Game} (i : Nat) : Reachable o g →
      i < g.players.length → Game.playerStay g i = some g1 → Reachable o g1
  | next {g g1 : Game} : Reachable o g → Game.nextRound g = some g1 →
      Reachable o g1

/-! ## Spec-side definitions and concrete inputs used by the claims -/

/-- The round-score formula as the specification words it: busted → 0;
otherwise the number-card subtotal, doubled once if a ×2 modifier is held,
plus the flat modifier values, plus a 15-point bonus when exactly 7
distinct number values are held. -/
def roundScoreSpec (p : BasePlayer) : Int :=
  if p.State = .Busted then 0
  else
    (if p.ModifierCards.any fun c => c.Modifier == .Multiply2 then 2 else 1)
        * (p.NumberCards.map fun c => c.Value).sum
      + ((p.ModifierCards.filter fun c => c.Modifier != .Multiply2).map
          Card.GetPoints).sum
      + (if ((p.NumberCards.map fun c => c.Value).dedup).length = 7 then 15
         else 0)

/-- Number of distinct number values held. -/
def distinctNumberValues (p : BasePlayer) : Nat :=
  ((p.NumberCards.map fun c => c.Value).dedup).length

/-- Single-player reachable states (the orchestrator only touches a player
through these operations). -/
inductive PlayerReach : BasePlayer → Prop where
  | init (name : String) : PlayerReach (BasePlayer.Init name)
  | addCard {p p1 : BasePlayer} {c : Card} {r : AddCardResult} :
      PlayerReach p → p.AddCard c = some (p1, r) → PlayerReach p1
  | stay {p p1 : BasePlayer} : PlayerReach p → p.Stay = some p1 →
      PlayerReach p1
  | bust {p p1 : BasePlayer} : PlayerReach p → p.Bust = some p1 →
      PlayerReach p1
  | useSecondChance {p p1 : BasePlayer} {c : Card} : PlayerReach p →
      p.UseSecondChance = some (p1, c) → PlayerReach p1
  | addToTotal {p : BasePlayer} : PlayerReach p →
      PlayerReach p.AddToTotalScore
  | reset {p : BasePlayer} : PlayerReach p →
      PlayerReach (p.ResetForNewRound).1

/-- Concrete oracles for witnesses: identity shuffle, always target
player 0 when one exists. -/
def witnessOracles : Oracles :=
  { shuffle := fun l => l,
    chooseTarget := fun g _ _ =>
      if 0 < g.players.length then some 0 else none,
    choosePositive := fun g _ _ =>
      if 0 < g.players.length then some 0 else none }

/-- The player of the multiplier-ordering test: hand {3, 4}, modifiers
{×2, +4}. -/
def multiplierTestPlayer : BasePlayer :=
  { BasePlayer.Init "P" with
      NumberCards := [NewNumberCard 3, NewNumberCard 4],
      ModifierCards := [NewModifierCard .Multiply2, NewModifierCard .Plus4] }

/-- Caller used in the targeting counterexample. -/
def cxSelf : Nat × BasePlayer := (0, BasePlayer.Init "A")

/-- The single other active player in the targeting counterexample: a
fresh player whose total and round scores are both 0. -/
def cxOther : Nat × BasePlayer := (1, BasePlayer.Init "B")

/-- Game state for the targeting counterexample: both players Active. -/
def cxState : GameState :=
  { Round := 1, Players := [cxSelf, cxOther],
    ActivePlayers := [cxSelf, cxOther], CurrentLeader := some cxSelf,
    CardsInDeck := [] }

/-- An other active player with a strictly positive score, for the
amended-targeting witness. -/
def cxRichOther : Nat × BasePlayer :=
  (1, { BasePlayer.Init "B" with TotalScore := 10 })

/-- Game state where the single other active player has score 10. -/
def cxRichState : GameState :=
  { Round := 1, Players := [cxSelf, cxRichOther],
    ActivePlayers := [cxSelf, cxRichOther], CurrentLeader := some cxRichOther,
    CardsInDeck := [] }

/-- Witness player for the bust rule: holds Number(5) and a +10
modifier. -/
def bustTestPlayer : BasePlayer :=
  { BasePlayer.Init "W1" with
      NumberCards := [NewNumberCard 5],
      ModifierCards := [NewModifierCard .Plus10] }

/-- Witness player for second-chance protection: holds Number(5) and a
Second Chance. -/
def scTestPlayer : BasePlayer :=
  { BasePlayer.Init "W2" with
      NumberCards := [NewNumberCard 5],
      ActionCards := [NewActionCard .SecondChance],
      SecondChance := true }

/-- Witness player one card away from a Flip 7: holds Number(0..5). -/
def flip7TestPlayer : BasePlayer :=
  { BasePlayer.Init "W3" with
      NumberCards := [NewNumberCard 0, NewNumberCard 1, NewNumberCard 2,
        NewNumberCard 3, NewNumberCard 4, NewNumberCard 5] }

/-- Witness computer player holding a Second Chance, configured with an
always-stay policy. -/
def scComputerPlayer : ComputerPlayer :=
  { base := { BasePlayer.Init "C" with SecondChance := true },
    HitOrStayStrategy := fun _ _ => false,
    ActionTargetStrategy := fun s _ _ => s,
    PositiveActionTargetStrategy := fun s _ _ => s }

/-- An empty game-state snapshot for witnesses. -/
def emptyGameState : GameState :=
  { Round := 1, Players := [], ActivePlayers := [], CurrentLeader := none,
    CardsInDeck := [] }

/-- Witness deck with one card in the draw pile. -/
def c6Deck : Deck :=
  { cards := [NewNumberCard 1], discards := [NewNumberCard 2],
    OriginalTotal := 2 }

/-- A two-player game used to witness the Flip-7 round ending. -/
def c5Game : Game :=
  { players := [BasePlayer.Init "G0", BasePlayer.Init "G1"],
    deck := { cards := [], discards := [], OriginalTotal := 0 },
    round := 1, dealerIdx := 0 }

/-- A game whose card total diverges from its recorded original total. -/
def badGame : Game :=
  { players := [],
    deck := { cards := [], discards := [], OriginalTotal := 94 },
    round := 1, dealerIdx := 0 }

/-- Relation between a game and its successor when a card that was in
flight has landed: the total grew by one and the player count and the
recorded original total are unchanged. -/
def Pplus (g g2 : Game) : Prop :=
  g2.totalCards = g.totalCards + 1 ∧
  g2.players.length = g.players.length ∧
  g2.deck.OriginalTotal = g.deck.OriginalTotal

/-- Relation between a game and its successor when no card was in flight:
the total, the player count and the recorded original total are
unchanged. -/
def Peq (g g2 : Game) : Prop :=
  g2.totalCards = g.totalCards ∧
  g2.players.length = g.players.length ∧
  g2.deck.OriginalTotal = g.deck.OriginalTotal

/-- Postcondition of `handleActionCard` (called with the action card in
flight): on a normal or error return exactly one card has landed. -/
def ActPost (g : Game) : GRes → Prop
  | .ok g2 => Pplus g g2
  | .err g2 _ => Pplus g g2
  | .fatal => True

/-- Postcondition of the Flip-Three draw loop (no card in flight at
entry): a normal exit conserves the total; an error exit carries one
extra card (the double-discarded drawn card, exactly compensating the
Flip-Three card the caller then fails to discard). -/
def LoopPost (g : Game) : GRes → Prop
  | .ok g2 => Peq g g2
  | .err g2 _ => Pplus g g2
  | .fatal => True

/-! ## Theorems -/

/-- C2: `CalculateRoundScore` returns 0 for a busted player and otherwise
the number-card sum, doubled once when a ×2 modifier is held, plus the
flat modifier values, plus 15 when exactly 7 distinct number values are
held (the code tests the hand size, which coincides with the distinct
count because hand values are duplicate-free); in particular the hand
{3, 4} with modifiers {×2, +4} scores ((3+4)*2)+4 = 18. -/
theorem roundScore_matches_spec (p : BasePlayer)
    (h : (p.NumberCards.map fun c => c.Value).Nodup) :
    p.CalculateRoundScore = roundScoreSpec p ∧
    multiplierTestPlayer.CalculateRoundScore = 18 := by
  constructor
  · unfold BasePlayer.CalculateRoundScore roundScoreSpec
    rw [List.dedup_eq_self.mpr h, List.length_map]
    by_cases hb : p.State = .Busted
    · simp [hb]
    · by_cases hM : (p.ModifierCards.any fun c => c.Modifier == .Multiply2) = true <;>
        by_cases h7 : p.NumberCards.length = 7 <;>
        simp [hb, hM, h7] <;> ring
  · decide

/-- Witness for C2 at the multiplier-ordering test player. -/
theorem roundScore_matches_spec_witness :
    multiplierTestPlayer.CalculateRoundScore = roundScoreSpec multiplierTestPlayer ∧
    multiplierTestPlayer.CalculateRoundScore = 18 :=
  roundScore_matches_spec multiplierTestPlayer (by decide)

/-- C3: adding a number card whose value is already held, to an Active
player without a second chance, transitions the player to Busted, signals
`bust:value`, and the busted player's round score is 0 whatever modifiers
are held. -/
theorem addCard_duplicate_busts (p : BasePlayer) (card : Card)
    (hn : card.ctype = .NumberCard) (ha : p.State = .Active)
    (hsc : p.SecondChance = false)
    (hdup : (p.NumberCards.any fun e => e.Value == card.Value) = true) :
    p.AddCard card = some ({ p with State := .Busted }, .bust card.Value) ∧
    BasePlayer.CalculateRoundScore { p with State := .Busted } = 0 := by
  constructor
  · unfold BasePlayer.AddCard BasePlayer.Bust BasePlayer.HasSecondChance
    simp [hn, hdup, hsc, ha]
  · unfold BasePlayer.CalculateRoundScore
    simp

/-- Witness for C3: a player holding Number(5) and a +10 modifier draws
another Number(5). -/
theorem addCard_duplicate_busts_witness :
    bustTestPlayer.AddCard (NewNumberCard 5)
        = some ({ bustTestPlayer with State := .Busted }, .bust 5) ∧
    BasePlayer.CalculateRoundScore { bustTestPlayer with State := .Busted } = 0 :=
  addCard_duplicate_busts bustTestPlayer (NewNumberCard 5) rfl rfl rfl (by decide)

/-- C4: adding a duplicate number card to a player who holds a Second
Chance does not bust: the call returns the player completely unchanged
(same hand, same state, same flag) and signals
`duplicate_with_second_chance:value`. -/
theorem addCard_duplicate_avoidable (p : BasePlayer) (card : Card)
    (hn : card.ctype = .NumberCard) (hsc : p.SecondChance = true)
    (hdup : (p.NumberCards.any fun e => e.Value == card.Value) = true) :
    p.AddCard card = some (p, .duplicateWithSecondChance card.Value) := by
  unfold BasePlayer.AddCard BasePlayer.HasSecondChance
  simp [hn, hdup, hsc]

/-- Witness for C4: a player holding Number(5) and a Second Chance draws
another Number(5). -/
theorem addCard_duplicate_avoidable_witness :
    scTestPlayer.AddCard (NewNumberCard 5)
      = some (scTestPlayer, .duplicateWithSecondChance 5) :=
  addCard_duplicate_avoidable scTestPlayer (NewNumberCard 5) rfl rfl (by decide)

/-- C9: a computer player holding a Second Chance always decides to hit,
whatever hit-or-stay policy is configured. -/
theorem makeHitStayDecision_second_chance_override (p : ComputerPlayer)
    (gs : GameState) (h : p.base.SecondChance = true) :
    p.MakeHitStayDecision gs = true := by
  unfold ComputerPlayer.MakeHitStayDecision BasePlayer.HasSecondChance
  simp [h]

/-- Witness for C9: the always-stay computer player holding a Second
Chance still hits. -/
theorem makeHitStayDecision_second_chance_override_witness :
    scComputerPlayer.MakeHitStayDecision emptyGameState = true :=
  makeHitStayDecision_second_chance_override scComputerPlayer emptyGameState rfl

theorem value_not_mem_of_any_eq_false (p : BasePlayer) (card : Card)
    (hdup : (p.NumberCards.any fun e => e.Value == card.Value) = false) :
    card.Value ∉ p.NumberCards.map fun c => c.Value := by
  intro hmem
  rcases List.mem_map.mp hmem with ⟨c, hc, hcv⟩
  have h1 := (List.any_eq_false.mp hdup) c hc
  simp only [beq_iff_eq] at h1
  exact h1 hcv

theorem appended_values_nodup (p : BasePlayer) (card : Card)
    (hdup : (p.NumberCards.any fun e => e.Value == card.Value) = false)
    (hnd : (p.NumberCards.map fun c => c.Value).Nodup) :
    ((p.NumberCards ++ [card]).map fun c => c.Value).Nodup := by
  rw [List.map_append]
  rw [List.nodup_append]
  refine ⟨hnd, by simp, ?_⟩
  intro a ha hb
  simp only [List.map_cons, List.map_nil, List.mem_singleton] at hb
  subst hb
  exact value_not_mem_of_any_eq_false p card hdup ha

/-- C5: adding a fresh number value to an Active player appends it to the
hand; if the hand then holds 7 distinct number values (equivalently 7
number cards, the size the code tests) the player transitions to Stayed
and `flip7` is signalled; and the orchestrator's `endRoundForFlip7` leaves
no other player Active. -/
theorem addCard_flip7 (p : BasePlayer) (card : Card)
    (hn : card.ctype = .NumberCard) (ha : p.State = .Active)
    (hdup : (p.NumberCards.any fun e => e.Value == card.Value) = false)
    (hnd : (p.NumberCards.map fun c => c.Value).Nodup) :
    distinctNumberValues { p with NumberCards := p.NumberCards ++ [card] }
        = p.NumberCards.length + 1 ∧
    (if p.NumberCards.length + 1 = 7 then
        p.AddCard card = some
          ({ p with NumberCards := p.NumberCards ++ [card], State := .Stayed },
           .flip7)
      else
        p.AddCard card = some
          ({ p with NumberCards := p.NumberCards ++ [card] }, .ok)) ∧
    (∀ (g : Game) (k j : Nat), j < g.players.length → j ≠ k →
      ((g.endRoundForFlip7 k).player j).IsActive = false) := by
  refine ⟨?_, ?_, ?_⟩
  · unfold distinctNumberValues
    rw [List.dedup_eq_self.mpr (appended_values_nodup p card hdup hnd)]
    simp
  · unfold BasePlayer.AddCard BasePlayer.Stay
    by_cases h7 : p.NumberCards.length + 1 = 7 <;>
      simp [hn, hdup, ha, h7]
  · intro g k j hj hk
    unfold Game.endRoundForFlip7 Game.player
    have hj1 : j < (g.players.mapIdx fun j p =>
        if j ≠ k ∧ p.State = .Active then { p with State := .Stayed }
        else p).length := by
      simpa [List.length_mapIdx] using hj
    rw [List.getD_eq_getElem _ _ hj1, List.getElem_mapIdx]
    by_cases hA : (g.players[j]).State = PlayerState.Active
    · simp [BasePlayer.IsActive, hk, hA]
    · simp [BasePlayer.IsActive, hk, hA]

/-- Witness for C5: the player holding Number(0..5) draws Number(6),
achieving Flip 7, and player 1 of the witness game is no longer active
after player 0 achieves Flip 7. -/
theorem addCard_flip7_witness :
    flip7TestPlayer.AddCard (NewNumberCard 6) = some
      ({ flip7TestPlayer with
          NumberCards := flip7TestPlayer.NumberCards ++ [NewNumberCard 6],
          State := .Stayed }, .flip7) ∧
    ((c5Game.endRoundForFlip7 0).player 1).IsActive = false := by
  have h := addCard_flip7 flip7TestPlayer (NewNumberCard 6) rfl rfl
    (by decide) (by decide)
  refine ⟨?_, h.2.2 c5Game 0 1 (by decide) (by decide)⟩
  have h2 := h.2.1
  rw [if_pos (by decide :
    flip7TestPlayer.NumberCards.length + 1 = 7)] at h2
  exact h2

theorem addCard_preserves_nodup (p p1 : BasePlayer) (c : Card)
    (r : AddCardResult)
    (hnd : (p.NumberCards.map fun x => x.Value).Nodup)
    (h : p.AddCard c = some (p1, r)) :
    (p1.NumberCards.map fun x => x.Value).Nodup := by
  unfold BasePlayer.AddCard at h
  cases hc : c.ctype
  case NumberCard =>
    simp only [hc, BasePlayer.HasSecondChance, BasePlayer.Bust,
      BasePlayer.Stay] at h
    split at h
    · split at h
      · simp only [Option.some.injEq, Prod.mk.injEq] at h
        rw [← h.1]
        exact hnd
      · split at h
        · exact absurd h (by simp)
        · next p2 heq =>
          split at heq
          · simp only [Option.some.injEq] at heq
            simp only [Option.some.injEq, Prod.mk.injEq] at h
            rw [← h.1, ← heq]
            exact hnd
          · exact absurd heq (by simp)
    · next hdup =>
      rw [Bool.not_eq_true] at hdup
      split at h
      · split at h
        · exact absurd h (by simp)
        · next p2 heq =>
          split at heq
          · simp only [Option.some.injEq] at heq
            simp only [Option.some.injEq, Prod.mk.injEq] at h
            rw [← h.1, ← heq]
            exact appended_values_nodup p c hdup hnd
          · exact absurd heq (by simp)
      · simp only [Option.some.injEq, Prod.mk.injEq] at h
        rw [← h.1]
        exact appended_values_nodup p c hdup hnd
  case ActionCard =>
    simp only [hc, BasePlayer.HasSecondChance] at h
    split at h
    · split at h
      · simp only [Option.some.injEq, Prod.mk.injEq] at h
        rw [← h.1]
        exact hnd
      · simp only [Option.some.injEq, Prod.mk.injEq] at h
        rw [← h.1]
        exact hnd
    · simp only [Option.some.injEq, Prod.mk.injEq] at h
      rw [← h.1]
      exact hnd
  case ModifierCard =>
    simp only [hc] at h
    simp only [Option.some.injEq, Prod.mk.injEq] at h
    rw [← h.1]
    exact hnd

/-- C10: in every reachable player state the number-card values are
pairwise distinct (so the distinct-value count equals the hand size);
`AddCard` never appends a duplicate number card, signalling bust or
duplicate-avoidable instead; and the round reset empties the hand. -/
theorem hand_values_distinct :
    (∀ p : BasePlayer, PlayerReach p →
        (p.NumberCards.map fun c => c.Value).Nodup ∧
        distinctNumberValues p = p.NumberCards.length) ∧
    (∀ (p p1 : BasePlayer) (card : Card) (r : AddCardResult),
        card.ctype = .NumberCard →
        (p.NumberCards.any fun e => e.Value == card.Value) = true →
        p.AddCard card = some (p1, r) →
        p1.NumberCards = p.NumberCards ∧
        (r = .bust card.Value ∨ r = .duplicateWithSecondChance card.Value)) ∧
    (∀ p : BasePlayer, (p.ResetForNewRound).1.NumberCards = []) := by
  refine ⟨?_, ?_, fun p => rfl⟩
  · have main : ∀ p : BasePlayer, PlayerReach p →
        (p.NumberCards.map fun c => c.Value).Nodup := by
      intro p h
      induction h with
      | init name => simp [BasePlayer.Init]
      | addCard hp hadd ih => exact addCard_preserves_nodup _ _ _ _ ih hadd
      | stay hp hs ih =>
        unfold BasePlayer.Stay at hs
        split at hs
        · simp only [Option.some.injEq] at hs
          rw [← hs]
          exact ih
        · exact absurd hs (by simp)
      | bust hp hs ih =>
        unfold BasePlayer.Bust at hs
        split at hs
        · simp only [Option.some.injEq] at hs
          rw [← hs]
          exact ih
        · exact absurd hs (by simp)
      | useSecondChance hp hs ih =>
        unfold BasePlayer.UseSecondChance at hs
        split at hs
        · rcases hrem : removeFirstSecondChance _ with _ | ⟨sc, rest⟩ <;>
            rw [hrem] at hs
          · exact absurd hs (by simp)
          · simp only [Option.some.injEq, Prod.mk.injEq] at hs
            rw [← hs.1]
            exact ih
        · exact absurd hs (by simp)
      | addToTotal hp ih => exact ih
      | reset hp ih => simp [BasePlayer.ResetForNewRound]
    intro p h
    refine ⟨main p h, ?_⟩
    unfold distinctNumberValues
    rw [List.dedup_eq_self.mpr (main p h), List.length_map]
  · intro p p1 card r hn hdup h
    unfold BasePlayer.AddCard at h
    rw [hn, if_pos hdup] at h
    by_cases hsc : p.HasSecondChance = true
    · rw [if_pos hsc] at h
      simp only [Option.some.injEq, Prod.mk.injEq] at h
      exact ⟨by rw [← h.1], Or.inr h.2.symm⟩
    · rw [if_neg hsc] at h
      unfold BasePlayer.Bust at h
      by_cases ha : p.State = .Active
      · rw [if_pos ha] at h
        simp only [Option.some.injEq, Prod.mk.injEq] at h
        exact ⟨by rw [← h.1], Or.inl h.2.symm⟩
      · rw [if_neg ha] at h
        exact absurd h (by simp)

/-- Witness for C10 at a freshly initialised player. -/
theorem hand_values_distinct_witness :
    ((BasePlayer.Init "X").NumberCards.map fun c => c.Value).Nodup ∧
    distinctNumberValues (BasePlayer.Init "X")
      = (BasePlayer.Init "X").NumberCards.length :=
  hand_values_distinct.1 (BasePlayer.Init "X") (PlayerReach.init "X")

/-- C7: a new deck holds exactly 94 cards and nothing in the discard
pile: one Number(0), `v` copies of Number(v) for v = 1..12, one copy of
each of the six modifiers, and three copies of each of the three action
cards. -/
theorem newDeck_composition (shuffle : List Card → List Card)
    (hs : ShuffleOK shuffle) :
    (NewDeck shuffle).cards.length = 94 ∧
    (NewDeck shuffle).discards = [] ∧
    (NewDeck shuffle).cards.count (NewNumberCard 0) = 1 ∧
    (∀ v : Nat, 1 ≤ v → v ≤ 12 →
      (NewDeck shuffle).cards.count (NewNumberCard (Int.ofNat v)) = v) ∧
    (∀ m : ModifierType,
      (NewDeck shuffle).cards.count (NewModifierCard m) = 1) ∧
    (∀ a : ActionType,
      (NewDeck shuffle).cards.count (NewActionCard a) = 3) := by
  have hp := hs createCards
  have hlen : (shuffle createCards).length = createCards.length := hp.length_eq
  have hcount : ∀ x : Card,
      (shuffle createCards).count x = createCards.count x :=
    fun x => hp.count_eq x
  refine ⟨?_, rfl, ?_, ?_, ?_, ?_⟩
  · show (shuffle createCards).length = 94
    rw [hlen]
    decide
  · show (shuffle createCards).count _ = 1
    rw [hcount]
    decide
  · intro v h1 h2
    show (shuffle createCards).count _ = v
    rw [hcount]
    interval_cases v <;> decide
  · intro m
    show (shuffle createCards).count _ = 1
    rw [hcount]
    cases m <;> decide
  · intro a
    show (shuffle createCards).count _ = 3
    rw [hcount]
    cases a <;> decide

/-- Witness for C7 with the identity shuffle. -/
theorem newDeck_composition_witness :
    (NewDeck (fun l => l)).cards.length = 94 ∧
    (NewDeck (fun l => l)).cards.count (NewNumberCard 12) = 12 :=
  ⟨(newDeck_composition (fun l => l) (fun l => List.Perm.refl l)).1,
   (newDeck_composition (fun l => l) (fun l => List.Perm.refl l)).2.2.2.1 12
     (by decide) (by decide)⟩

/-- C6: `DrawCard` removes and returns the top (last) card of the draw
pile; with an empty draw pile it behaves exactly as drawing after
reshuffling the discards into the draw pile; and it fails (panics) iff
both piles are empty. -/
theorem drawCard_spec (shuffle : List Card → List Card)
    (hs : ShuffleOK shuffle) (d : Deck) :
    (∀ h : d.cards ≠ [],
        d.DrawCard shuffle
          = some (d.cards.getLast h, { d with cards := d.cards.dropLast })) ∧
    (d.cards = [] →
        d.DrawCard shuffle = (d.Reshuffle shuffle).DrawCard shuffle) ∧
    (d.DrawCard shuffle = none ↔ d.cards = [] ∧ d.discards = []) := by
  have hemp : ∀ l : List Card, shuffle l = [] ↔ l = [] := by
    intro l
    constructor
    · intro h
      have := (hs l).length_eq
      rw [h] at this
      exact List.length_eq_zero.mp this.symm
    · intro h
      subst h
      exact List.length_eq_zero.mp (hs []).length_eq
  refine ⟨?_, ?_, ?_⟩
  · intro h
    unfold Deck.DrawCard
    rw [if_neg (by simp [h])]
    simp [List.getLast?_eq_getLast d.cards h]
  · intro hcc
    unfold Deck.DrawCard
    rw [if_pos (by simp [hcc])]
    by_cases hd2 : (d.Reshuffle shuffle).cards = []
    · rw [if_pos (by simp [hd2])]
      have hd3 : ((d.Reshuffle shuffle).Reshuffle shuffle).cards = [] := by
        unfold Deck.Reshuffle
        simp only [List.append_nil]
        rw [hemp]
        unfold Deck.Reshuffle at hd2
        simp only at hd2
        simp [hd2]
      simp [hd2, hd3]
    · rw [if_neg (by simp [hd2])]
  · constructor
    · intro h
      by_cases hcc : d.cards = []
      · refine ⟨hcc, ?_⟩
        unfold Deck.DrawCard at h
        rw [if_pos (by simp [hcc])] at h
        rcases hg : (d.Reshuffle shuffle).cards.getLast? with _ | c
        · rw [List.getLast?_eq_none_iff] at hg
          unfold Deck.Reshuffle at hg
          simp only [hcc, List.nil_append] at hg
          exact (hemp d.discards).mp hg
        · simp only [hg] at h
          exact Option.noConfusion h
      · unfold Deck.DrawCard at h
        rw [if_neg (by simp [hcc])] at h
        simp only [List.getLast?_eq_getLast d.cards hcc] at h
        exact Option.noConfusion h
    · rintro ⟨hcc, hdd⟩
      unfold Deck.DrawCard
      rw [if_pos (by simp [hcc])]
      have hg : (d.Reshuffle shuffle).cards.getLast? = none := by
        rw [List.getLast?_eq_none_iff]
        unfold Deck.Reshuffle
        simp only [hcc, hdd, List.nil_append]
        exact (hemp []).mpr rfl
      simp [hg]

/-- Witness for C6: a deck with one card in each pile draws its single
draw-pile card, and does not fail. -/
theorem drawCard_spec_witness :
    c6Deck.DrawCard (fun l => l)
      = some (c6Deck.cards.getLast (by decide),
              { c6Deck with cards := c6Deck.cards.dropLast }) ∧
    ¬(c6Deck.DrawCard (fun l => l) = none ∧ True) := by
  have h := drawCard_spec (fun l => l) (fun l => List.Perm.refl l) c6Deck
  refine ⟨h.1 (by decide), ?_⟩
  rintro ⟨hnone, -⟩
  have := (h.2.2.mp hnone).2
  simp [c6Deck] at this

theorem targetLeaderStep_cases (self : Nat × BasePlayer) (a : ActionType)
    (acc : Option (Nat × BasePlayer) × Int) (player : Nat × BasePlayer) :
    (targetLeaderStep self a acc player).1 = acc.1 ∨
    (player.1 ≠ self.1 ∧ (targetLeaderStep self a acc player).1 = some player) := by
  unfold targetLeaderStep
  split
  · left
    rfl
  · split
    · left
      rfl
    · next hne =>
      dsimp only
      split
      · right
        exact ⟨by simpa using hne, rfl⟩
      · left
        rfl

theorem targetLeader_foldl_mem (self : Nat × BasePlayer) (a : ActionType) :
    ∀ (l : List (Nat × BasePlayer)) (acc : Option (Nat × BasePlayer) × Int),
      (l.foldl (targetLeaderStep self a) acc).1 = acc.1 ∨
      ∃ r ∈ l, r.1 ≠ self.1 ∧
        (l.foldl (targetLeaderStep self a) acc).1 = some r := by
  intro l
  induction l with
  | nil =>
    intro acc
    left
    rfl
  | cons hd tl ih =>
    intro acc
    rw [List.foldl_cons]
    rcases ih (targetLeaderStep self a acc hd) with h1 | ⟨r, hr, hne, heq⟩
    · rcases targetLeaderStep_cases self a acc hd with h2 | ⟨hne, h2⟩
      · left
        rw [h1, h2]
      · right
        exact ⟨hd, List.mem_cons_self hd tl, hne, by rw [h1, h2]⟩
    · right
      exact ⟨r, List.mem_cons_of_mem hd hr, hne, heq⟩

theorem targetLeader_foldl_all_self (self : Nat × BasePlayer) (a : ActionType) :
    ∀ (l : List (Nat × BasePlayer)) (acc : Option (Nat × BasePlayer) × Int),
      (∀ r ∈ l, r.1 = self.1) →
      l.foldl (targetLeaderStep self a) acc = acc := by
  intro l
  induction l with
  | nil =>
    intro acc _
    rfl
  | cons hd tl ih =>
    intro acc hall
    rw [List.foldl_cons]
    have hhd : hd.1 = self.1 := hall hd (List.mem_cons_self hd tl)
    have hstep : targetLeaderStep self a acc hd = acc := by
      unfold targetLeaderStep
      split
      · rfl
      · rw [if_pos (by simp [hhd])]
    rw [hstep]
    exact ih acc fun r hr => hall r (List.mem_cons_of_mem hd hr)

theorem targetLeader_foldl_single (self q : Nat × BasePlayer) (a : ActionType)
    (ha : a ≠ .SecondChance)
    (hq : 0 < q.2.GetTotalScore + q.2.CalculateRoundScore) :
    ∀ l : List (Nat × BasePlayer),
      (l.filter fun r => r.1 != self.1) = [q] →
      (l.foldl (targetLeaderStep self a) ((none : Option (Nat × BasePlayer)), (0 : Int))).1
        = some q := by
  intro l
  induction l with
  | nil =>
    intro hf
    simp at hf
  | cons hd tl ih =>
    intro hf
    rw [List.foldl_cons]
    by_cases hhd : (hd.1 != self.1) = true
    · rw [List.filter_cons, if_pos hhd] at hf
      rw [List.cons_eq_cons] at hf
      obtain ⟨hd_eq, htl⟩ := hf
      subst hd_eq
      have hstep : targetLeaderStep self a (none, 0) hd
          = (some hd, hd.2.GetTotalScore + hd.2.CalculateRoundScore) := by
        unfold targetLeaderStep
        rw [if_neg (by simp [ha]), if_neg (by simpa using hhd), if_pos hq]
      rw [hstep]
      have hall : ∀ r ∈ tl, r.1 = self.1 := by
        intro r hr
        have := List.filter_eq_nil_iff.mp htl r hr
        simpa using this
      rw [targetLeader_foldl_all_self self a tl _ hall]
    · rw [List.filter_cons, if_neg hhd] at hf
      have hd_self : hd.1 = self.1 := by simpa using hhd
      have hstep : targetLeaderStep self a (none, 0) hd = (none, 0) := by
        unfold targetLeaderStep
        split
        · rfl
        · rw [if_pos (by simp [hd_self])]
      rw [hstep]
      exact ih hf

/-- C8 counterexample: with exactly one other Active player whose total
and round scores are both 0 (the state of every player at the start of a
game), `TargetLeaderStrategy` returns the caller itself, because its
leader scan starts from score 0 and only records strictly greater
scores. -/
theorem targetLeader_zero_score_counterexample :
    (cxState.ActivePlayers.filter fun r => r.1 != cxSelf.1) = [cxOther] ∧
    cxOther.2.IsActive = true ∧
    cxOther ≠ cxSelf ∧
    TargetLeaderStrategy cxSelf cxState .Freeze = cxSelf := by decide

/-- C8 (amended): the adversarial strategies never fail and return the
caller or an Active other player; with exactly one other Active player,
`TargetRandomStrategy` always returns that player, while
`TargetLeaderStrategy` returns it only when its total-plus-round score is
strictly positive (otherwise it falls back to the caller). -/
theorem targeting_contract_amended :
    (∀ (self : Nat × BasePlayer) (gs : GameState) (a : ActionType),
        (∀ r ∈ gs.ActivePlayers, r.2.IsActive = true) →
        TargetLeaderStrategy self gs a = self ∨
          ((TargetLeaderStrategy self gs a).2.IsActive = true ∧
           (TargetLeaderStrategy self gs a).1 ≠ self.1)) ∧
    (∀ (self q : Nat × BasePlayer) (gs : GameState) (a : ActionType),
        a ≠ .SecondChance →
        (gs.ActivePlayers.filter fun r => r.1 != self.1) = [q] →
        0 < q.2.GetTotalScore + q.2.CalculateRoundScore →
        TargetLeaderStrategy self gs a = q) ∧
    (∀ (randIntn : Nat → Nat) (self q : Nat × BasePlayer) (gs : GameState)
        (a : ActionType),
        (∀ n, 0 < n → randIntn n < n) → a ≠ .SecondChance →
        (gs.Players.filter fun r => r.2.IsActive && (r.1 != self.1)) = [q] →
        TargetRandomStrategy randIntn self gs a = q) ∧
    (∀ (randIntn : Nat → Nat) (self : Nat × BasePlayer) (gs : GameState)
        (a : ActionType),
        TargetRandomStrategy randIntn self gs a = self ∨
          ((TargetRandomStrategy randIntn self gs a).2.IsActive = true ∧
           (TargetRandomStrategy randIntn self gs a).1 ≠ self.1)) := by
  refine ⟨?_, ?_, ?_, ?_⟩
  · intro self gs a hact
    unfold TargetLeaderStrategy
    rcases targetLeader_foldl_mem self a gs.ActivePlayers (none, 0)
      with h | ⟨r, hr, hne, heq⟩
    · left
      simp only [h]
    · right
      simp only [heq]
      exact ⟨hact r hr, hne⟩
  · intro self q gs a ha hf hq
    unfold TargetLeaderStrategy
    simp only [targetLeader_foldl_single self q a ha hq gs.ActivePlayers hf]
  · intro randIntn self q gs a hrand ha hf
    unfold TargetRandomStrategy
    have hfeq : (gs.Players.filter fun player =>
        !((a == ActionType.SecondChance) && player.2.HasSecondChance)
          && player.2.IsActive && (player.1 != self.1)) = [q] := by
      rw [List.filter_congr fun x _ => ?_, hf]
      simp [beq_eq_false_iff_ne.mpr ha]
    simp only [hfeq]
    have h0 : randIntn 1 = 0 := Nat.lt_one_iff.mp (hrand 1 Nat.one_pos)
    simp [h0]
  · intro randIntn self gs a
    unfold TargetRandomStrategy
    by_cases hl : (gs.Players.filter fun player =>
        !((a == ActionType.SecondChance) && player.2.HasSecondChance)
          && player.2.IsActive && (player.1 != self.1)).length = 0
    · left
      rw [if_pos hl]
    · rw [if_neg hl]
      by_cases hidx : randIntn (gs.Players.filter fun player =>
          !((a == ActionType.SecondChance) && player.2.HasSecondChance)
            && player.2.IsActive && (player.1 != self.1)).length
          < (gs.Players.filter fun player =>
          !((a == ActionType.SecondChance) && player.2.HasSecondChance)
            && player.2.IsActive && (player.1 != self.1)).length
      · right
        rw [List.getD_eq_getElem _ _ hidx]
        have hmem := List.getElem_mem hidx
        have hpred := List.of_mem_filter hmem
        simp only [Bool.and_eq_true] at hpred
        refine ⟨hpred.1.2, ?_⟩
        simpa using hpred.2
      · left
        rw [List.getD_eq_default _ _ (Nat.le_of_not_lt hidx)]

/-- Witness for the amended C8 at a state whose single other active
player has score 10. -/
theorem targeting_contract_amended_witness :
    TargetLeaderStrategy cxSelf cxRichState .Freeze = cxRichOther ∧
    TargetRandomStrategy (fun _ => 0) cxSelf cxRichState .Freeze
      = cxRichOther :=
  ⟨targeting_contract_amended.2.1 cxSelf cxRichOther cxRichState .Freeze
      (by decide) (by decide) (by decide),
   targeting_contract_amended.2.2.1 (fun _ => 0) cxSelf cxRichOther
      cxRichState .Freeze (fun n hn => hn) (by decide) (by decide)⟩

theorem GetHand_length (p : BasePlayer) :
    p.GetHand.length
      = p.NumberCards.length + p.ModifierCards.length + p.ActionCards.length := by
  simp [BasePlayer.GetHand]
  omega

theorem Stay_hand (p p1 : BasePlayer) (h : p.Stay = some p1) :
    p1.GetHand.length = p.GetHand.length := by
  unfold BasePlayer.Stay at h
  split at h
  · simp only [Option.some.injEq] at h
    rw [← h]
    rfl
  · exact absurd h (by simp)

theorem IsActionCard_iff (c : Card) :
    c.IsActionCard = true ↔ c.ctype = .ActionCard := by
  unfold Card.IsActionCard
  simp

theorem sum_map_set {α : Type} (f : α → Nat) (d : α) :
    ∀ (l : List α) (i : Nat), i < l.length → ∀ x : α,
      ((l.set i x).map f).sum + f (l.getD i d)
        = (l.map f).sum + f x := by
  intro l
  induction l with
  | nil =>
    intro i hi
    exact absurd hi (Nat.not_lt_zero i)
  | cons hd tl ih =>
    intro i hi x
    cases i with
    | zero => simp; omega
    | succ n =>
      simp only [List.set_cons_succ, List.map_cons, List.sum_cons,
        List.getD_cons_succ]
      have := ih n (by simpa using hi) x
      omega

theorem player_updatePlayer_self (g : Game) (i : Nat) (p1 : BasePlayer)
    (hi : i < g.players.length) : (g.updatePlayer i p1).player i = p1 := by
  unfold Game.updatePlayer Game.player
  rw [List.getD_eq_getElem _ _ (by simpa using hi)]
  exact List.getElem_set_self _

theorem totalCards_updatePlayer (g : Game) (i : Nat) (p1 : BasePlayer)
    (hi : i < g.players.length) :
    (g.updatePlayer i p1).totalCards + (g.player i).GetHand.length
      = g.totalCards + p1.GetHand.length := by
  unfold Game.totalCards Game.updatePlayer Game.player
  have := sum_map_set (fun p => p.GetHand.length) (BasePlayer.Init "")
    g.players i hi p1
  simp only at this ⊢
  omega

theorem updatePlayer_players_length (g : Game) (i : Nat) (p1 : BasePlayer) :
    (g.updatePlayer i p1).players.length = g.players.length :=
  List.length_set g.players i p1

theorem updatePlayer_deck (g : Game) (i : Nat) (p1 : BasePlayer) :
    (g.updatePlayer i p1).deck = g.deck := rfl

theorem totalCards_discard (g : Game) (c : Card) :
    (g.discard c).totalCards = g.totalCards + 1 := by
  unfold Game.totalCards Game.discard Deck.DiscardCard
  simp only [List.length_append, List.length_cons, List.length_nil]
  omega

theorem discard_players (g : Game) (c : Card) :
    (g.discard c).players = g.players := rfl

theorem discard_OriginalTotal (g : Game) (c : Card) :
    (g.discard c).deck.OriginalTotal = g.deck.OriginalTotal := rfl

theorem deck_drawCard_some (shuffle : List Card → List Card)
    (hs : ShuffleOK shuffle) (d : Deck) (c : Card) (d2 : Deck)
    (h : d.DrawCard shuffle = some (c, d2)) :
    d2.cards.length + d2.discards.length + 1
        = d.cards.length + d.discards.length ∧
    d2.OriginalTotal = d.OriginalTotal := by
  unfold Deck.DrawCard at h
  by_cases hcc : d.cards.isEmpty = true
  · rw [if_pos hcc] at h
    rcases hg : (d.Reshuffle shuffle).cards.getLast? with _ | c3 <;>
      simp only [hg] at h
    · exact Option.noConfusion h
    · simp only [Option.some.injEq, Prod.mk.injEq] at h
      have hlen : (d.Reshuffle shuffle).cards.length
          = d.cards.length + d.discards.length := by
        unfold Deck.Reshuffle
        simp only
        rw [(hs (d.cards ++ d.discards)).length_eq, List.length_append]
      have hpos : 0 < (d.Reshuffle shuffle).cards.length := by
        refine List.length_pos.mpr fun hnil => ?_
        rw [hnil] at hg
        simp at hg
      obtain ⟨-, hd2⟩ := h
      rw [← hd2]
      have hdis : (d.Reshuffle shuffle).discards = [] := rfl
      have hOT : (d.Reshuffle shuffle).OriginalTotal = d.OriginalTotal := rfl
      constructor
      · simp only [hdis, List.length_nil, List.length_dropLast]
        omega
      · exact hOT
  · rw [if_neg hcc] at h
    rcases hg : d.cards.getLast? with _ | c3 <;> simp only [hg] at h
    · exact Option.noConfusion h
    · simp only [Option.some.injEq, Prod.mk.injEq] at h
      have hpos : 0 < d.cards.length := by
        refine List.length_pos.mpr fun hnil => ?_
        rw [hnil] at hg
        simp at hg
      obtain ⟨-, hd2⟩ := h
      rw [← hd2]
      constructor
      · simp only [List.length_dropLast]
        omega
      · rfl

theorem drawCard_some (o : Oracles) (ho : OraclesOK o) (g : Game) (c : Card)
    (g1 : Game) (h : Game.drawCard o g = some (c, g1)) :
    g1.totalCards + 1 = g.totalCards ∧ g1.players = g.players ∧
    g1.deck.OriginalTotal = g.deck.OriginalTotal := by
  unfold Game.drawCard at h
  rcases hd : g.deck.DrawCard o.shuffle with _ | ⟨c2, d2⟩ <;>
    simp only [hd] at h
  · exact Option.noConfusion h
  · simp only [Option.some.injEq, Prod.mk.injEq] at h
    obtain ⟨-, hg1⟩ := h
    have hdl := deck_drawCard_some o.shuffle ho.shuffle_perm g.deck c2 d2 hd
    rw [← hg1]
    refine ⟨?_, rfl, hdl.2⟩
    unfold Game.totalCards
    simp only
    omega

theorem mapIdx_hand_sum (f : Nat → BasePlayer → BasePlayer)
    (h : ∀ j p, (f j p).GetHand.length = p.GetHand.length) :
    ∀ l : List BasePlayer,
      ((l.mapIdx f).map fun p => p.GetHand.length).sum
        = (l.map fun p => p.GetHand.length).sum := by
  intro l
  induction l generalizing f with
  | nil => rfl
  | cons hd tl ih =>
    rw [List.mapIdx_cons]
    simp only [List.map_cons, List.sum_cons]
    rw [h 0 hd, ih _ fun j p => h (j + 1) p]

theorem endRoundForFlip7_spec (g : Game) (k : Nat) :
    (g.endRoundForFlip7 k).totalCards = g.totalCards ∧
    (g.endRoundForFlip7 k).players.length = g.players.length ∧
    (g.endRoundForFlip7 k).deck = g.deck := by
  refine ⟨?_, by simp [Game.endRoundForFlip7, List.length_mapIdx], rfl⟩
  unfold Game.totalCards Game.endRoundForFlip7
  simp only
  have hh : ∀ (j : Nat) (p : BasePlayer),
      ((fun j p => if j ≠ k ∧ p.State = .Active
          then { p with State := PlayerState.Stayed } else p) j p).GetHand.length
        = p.GetHand.length := by
    intro j p
    dsimp only
    split <;> rfl
  rw [mapIdx_hand_sum _ hh g.players]

theorem addCard_hand_length (p p1 : BasePlayer) (c : Card)
    (r : AddCardResult) (h : p.AddCard c = some (p1, r)) :
    p1.GetHand.length
      = p.GetHand.length + (if r = .ok ∨ r = .flip7 then 1 else 0) := by
  unfold BasePlayer.AddCard at h
  cases hc : c.ctype
  case NumberCard =>
    simp only [hc, BasePlayer.HasSecondChance, BasePlayer.Bust,
      BasePlayer.Stay] at h
    split at h
    · split at h
      · simp only [Option.some.injEq, Prod.mk.injEq] at h
        rw [← h.1, ← h.2]
        simp
      · split at h
        · exact absurd h (by simp)
        · next p2 heq =>
          split at heq
          · simp only [Option.some.injEq] at heq
            simp only [Option.some.injEq, Prod.mk.injEq] at h
            rw [← h.1, ← h.2, ← heq]
            simp [GetHand_length]
          · exact absurd heq (by simp)
    · split at h
      · split at h
        · exact absurd h (by simp)
        · next p2 heq =>
          split at heq
          · simp only [Option.some.injEq] at heq
            simp only [Option.some.injEq, Prod.mk.injEq] at h
            rw [← h.1, ← h.2, ← heq]
            simp [GetHand_length]
            omega
          · exact absurd heq (by simp)
      · simp only [Option.some.injEq, Prod.mk.injEq] at h
        rw [← h.1, ← h.2]
        simp [GetHand_length]
        omega
  case ActionCard =>
    simp only [hc, BasePlayer.HasSecondChance] at h
    split at h
    · split at h
      · simp only [Option.some.injEq, Prod.mk.injEq] at h
        rw [← h.1, ← h.2]
        simp
      · simp only [Option.some.injEq, Prod.mk.injEq] at h
        rw [← h.1, ← h.2]
        simp [GetHand_length]
        omega
    · simp only [Option.some.injEq, Prod.mk.injEq] at h
      rw [← h.1, ← h.2]
      simp [GetHand_length]
      omega
  case ModifierCard =>
    simp only [hc] at h
    simp only [Option.some.injEq, Prod.mk.injEq] at h
    rw [← h.1, ← h.2]
    simp [GetHand_length]
    omega

theorem addCard_not_scDup (p p1 : BasePlayer) (c : Card) (r : AddCardResult)
    (hc : c.IsActionCard = false) (h : p.AddCard c = some (p1, r)) :
    r ≠ .secondChanceDuplicate := by
  unfold BasePlayer.AddCard at h
  cases hct : c.ctype
  case ActionCard =>
    exact absurd ((IsActionCard_iff c).mpr hct) (by simp [hc])
  case NumberCard =>
    simp only [hct, BasePlayer.HasSecondChance, BasePlayer.Bust,
      BasePlayer.Stay] at h
    split at h
    · split at h
      · simp only [Option.some.injEq, Prod.mk.injEq] at h
        rw [← h.2]
        simp
      · split at h
        · exact absurd h (by simp)
        · next p2 heq =>
          simp only [Option.some.injEq, Prod.mk.injEq] at h
          rw [← h.2]
          simp
    · split at h
      · split at h
        · exact absurd h (by simp)
        · next p2 heq =>
          simp only [Option.some.injEq, Prod.mk.injEq] at h
          rw [← h.2]
          simp
      · simp only [Option.some.injEq, Prod.mk.injEq] at h
        rw [← h.2]
        simp
  case ModifierCard =>
    simp only [hct] at h
    simp only [Option.some.injEq, Prod.mk.injEq] at h
    rw [← h.2]
    simp

theorem addCard_action_result (p p1 : BasePlayer) (c : Card)
    (r : AddCardResult) (hc : c.ctype = .ActionCard)
    (h : p.AddCard c = some (p1, r)) :
    r = .ok ∨ r = .secondChanceDuplicate := by
  unfold BasePlayer.AddCard at h
  simp only [hc, BasePlayer.HasSecondChance] at h
  split at h
  · split at h
    · simp only [Option.some.injEq, Prod.mk.injEq] at h
      right
      rw [← h.2]
    · simp only [Option.some.injEq, Prod.mk.injEq] at h
      left
      rw [← h.2]
  · simp only [Option.some.injEq, Prod.mk.injEq] at h
    left
    rw [← h.2]

theorem removeFirstSecondChance_length :
    ∀ (l : List Card) (sc : Card) (rest : List Card),
      removeFirstSecondChance l = some (sc, rest) →
      rest.length + 1 = l.length := by
  intro l
  induction l with
  | nil =>
    intro sc rest h
    simp [removeFirstSecondChance] at h
  | cons hd tl ih =>
    intro sc rest h
    unfold removeFirstSecondChance at h
    split at h
    · simp only [Option.some.injEq, Prod.mk.injEq] at h
      rw [← h.2]
      simp
    · rcases hr : removeFirstSecondChance tl with _ | ⟨sc2, rest2⟩ <;>
        simp only [hr] at h
      · exact Option.noConfusion h
      · simp only [Option.some.injEq, Prod.mk.injEq] at h
        rw [← h.2]
        have := ih sc2 rest2 hr
        simp only [List.length_cons]
        omega

theorem useSecondChance_hand (p p1 : BasePlayer) (sc : Card)
    (h : p.UseSecondChance = some (p1, sc)) :
    p1.GetHand.length + 1 = p.GetHand.length := by
  unfold BasePlayer.UseSecondChance at h
  split at h
  · rcases hr : removeFirstSecondChance p.ActionCards with _ | ⟨sc2, rest⟩ <;>
      simp only [hr] at h
    · exact Option.noConfusion h
    · simp only [Option.some.injEq, Prod.mk.injEq] at h
      rw [← h.1]
      have := removeFirstSecondChance_length p.ActionCards sc2 rest hr
      simp only [GetHand_length]
      omega
  · exact Option.noConfusion h

theorem addCard_step (g : Game) (i : Nat) (card : Card) (p1 : BasePlayer)
    (r : AddCardResult) (hi : i < g.players.length)
    (hadd : (g.player i).AddCard card = some (p1, r)) (hr : r ≠ .ok) :
    (∀ g2, (g.updatePlayer i p1).handleCardAddError i card r = .ok g2 →
        Pplus g g2) ∧
    (∀ g2 e, (g.updatePlayer i p1).handleCardAddError i card r = .err g2 e →
        Peq g g2 ∧ r = .secondChanceDuplicate) := by
  have hd := addCard_hand_length _ _ _ _ hadd
  have hupd := totalCards_updatePlayer g i p1 hi
  have hlen := updatePlayer_players_length g i p1
  cases r with
  | ok => exact absurd rfl hr
  | bust v =>
    simp only [reduceCtorEq, or_self, if_false, Nat.add_zero] at hd
    constructor
    · intro g2 h
      simp only [Game.handleCardAddError] at h
      cases h
      refine ⟨?_, ?_, ?_⟩
      · rw [totalCards_discard]
        omega
      · rw [discard_players, hlen]
      · rfl
    · intro g2 e h
      simp only [Game.handleCardAddError] at h
      exact GRes.noConfusion h
  | flip7 =>
    simp only [reduceCtorEq, or_true, if_true] at hd
    constructor
    · intro g2 h
      simp only [Game.handleCardAddError] at h
      cases h
      obtain ⟨he1, he2, he3⟩ := endRoundForFlip7_spec (g.updatePlayer i p1) i
      refine ⟨?_, ?_, ?_⟩
      · rw [he1]
        omega
      · rw [he2, hlen]
      · rw [he3]
        rfl
    · intro g2 e h
      simp only [Game.handleCardAddError] at h
      exact GRes.noConfusion h
  | duplicateWithSecondChance v =>
    simp only [reduceCtorEq, or_self, if_false, Nat.add_zero] at hd
    have hself := player_updatePlayer_self g i p1 hi
    rcases husc : p1.UseSecondChance with _ | ⟨p2, sc⟩
    · constructor
      · intro g2 h
        simp only [Game.handleCardAddError, hself, husc] at h
        exact GRes.noConfusion h
      · intro g2 e h
        simp only [Game.handleCardAddError, hself, husc] at h
        exact GRes.noConfusion h
    · have hscΔ := useSecondChance_hand p1 p2 sc husc
      have hi2 : i < (g.updatePlayer i p1).players.length := by
        rw [hlen]
        exact hi
      have hupd2 := totalCards_updatePlayer (g.updatePlayer i p1) i p2 hi2
      rw [hself] at hupd2
      constructor
      · intro g2 h
        simp only [Game.handleCardAddError, hself, husc] at h
        cases h
        refine ⟨?_, ?_, ?_⟩
        · rw [totalCards_discard, totalCards_discard]
          omega
        · rw [discard_players, discard_players,
            updatePlayer_players_length, hlen]
        · rfl
      · intro g2 e h
        simp only [Game.handleCardAddError, hself, husc] at h
        exact GRes.noConfusion h
  | secondChanceDuplicate =>
    simp only [reduceCtorEq, or_self, if_false, Nat.add_zero] at hd
    constructor
    · intro g2 h
      simp only [Game.handleCardAddError] at h
      exact GRes.noConfusion h
    · intro g2 e h
      simp only [Game.handleCardAddError, AddCardResult.toErr] at h
      cases h
      refine ⟨⟨?_, ?_, ?_⟩, rfl⟩
      · omega
      · rw [hlen]
      · rfl

theorem handleFreeze_spec (o : Oracles) (ho : OraclesOK o) (g : Game)
    (i : Nat) (card : Card) :
    (∀ g2, Game.handleFreezeCard o g i card = .ok g2 → Pplus g g2) ∧
    (∀ g2 e, Game.handleFreezeCard o g i card = .err g2 e → Pplus g g2) := by
  unfold Game.handleFreezeCard
  rcases hct : o.chooseTarget g i .Freeze with _ | t <;> simp only [hct]
  · constructor
    · intro g2 h
      exact GRes.noConfusion h
    · intro g2 e h
      cases h
      exact ⟨totalCards_discard g card, rfl, rfl⟩
  · have ht := ho.chooseTarget_lt g i .Freeze t hct
    rcases hstay : (g.player t).Stay with _ | p1 <;> simp only [hstay]
    · exact ⟨fun g2 h => GRes.noConfusion h, fun g2 e h => GRes.noConfusion h⟩
    · have hhand := Stay_hand _ _ hstay
      have hupd := totalCards_updatePlayer g t p1 ht
      constructor
      · intro g2 h
        cases h
        refine ⟨?_, ?_, ?_⟩
        · rw [totalCards_discard]
          omega
        · rw [discard_players, updatePlayer_players_length]
        · rfl
      · intro g2 e h
        exact GRes.noConfusion h

theorem handleSC_spec (o : Oracles) (ho : OraclesOK o) (g : Game) (i : Nat)
    (card : Card) (hi : i < g.players.length)
    (hcard : card.ctype = .ActionCard) :
    (∀ g2, Game.handleSecondChanceCard o g i card = .ok g2 → Pplus g g2) ∧
    (∀ g2 e, Game.handleSecondChanceCard o g i card = .err g2 e →
        Pplus g g2) := by
  unfold Game.handleSecondChanceCard
  by_cases hsc : (g.player i).HasSecondChance = true
  · rw [if_pos hsc]
    rcases hcp : o.choosePositive g i .SecondChance with _ | t <;>
      simp only [hcp]
    · constructor
      · intro g2 h
        exact GRes.noConfusion h
      · intro g2 e h
        cases h
        exact ⟨totalCards_discard g card, rfl, rfl⟩
    · have ht := ho.choosePositive_lt g i .SecondChance t hcp
      rcases hadd : (g.player t).AddCard card with _ | ⟨p1, r⟩ <;>
        simp only [hadd]
      · exact ⟨fun g2 h => GRes.noConfusion h,
          fun g2 e h => GRes.noConfusion h⟩
      · have hd := addCard_hand_length _ _ _ _ hadd
        have hupd := totalCards_updatePlayer g t p1 ht
        rcases addCard_action_result _ _ _ _ hcard hadd with hr | hr <;>
          subst hr
        · rw [if_pos rfl]
          simp only [reduceCtorEq, or_false, if_true] at hd
          constructor
          · intro g2 h
            cases h
            refine ⟨?_, ?_, ?_⟩
            · omega
            · rw [updatePlayer_players_length]
            · rfl
          · intro g2 e h
            exact GRes.noConfusion h
        · rw [if_neg (by simp)]
          simp only [reduceCtorEq, or_self, if_false, Nat.add_zero] at hd
          constructor
          · intro g2 h
            exact GRes.noConfusion h
          · intro g2 e h
            cases h
            refine ⟨?_, ?_, ?_⟩
            · rw [totalCards_discard]
              omega
            · rw [discard_players, updatePlayer_players_length]
            · rfl
  · rw [if_neg hsc]
    rcases hadd : (g.player i).AddCard card with _ | ⟨p1, r⟩ <;>
      simp only [hadd]
    · exact ⟨fun g2 h => GRes.noConfusion h, fun g2 e h => GRes.noConfusion h⟩
    · have hd := addCard_hand_length _ _ _ _ hadd
      have hupd := totalCards_updatePlayer g i p1 hi
      rcases addCard_action_result _ _ _ _ hcard hadd with hr | hr <;>
        subst hr
      · rw [if_pos rfl]
        simp only [reduceCtorEq, or_false, if_true] at hd
        constructor
        · intro g2 h
          cases h
          refine ⟨?_, ?_, ?_⟩
          · omega
          · rw [updatePlayer_players_length]
          · rfl
        · intro g2 e h
          exact GRes.noConfusion h
      · rw [if_neg (by simp)]
        simp only [reduceCtorEq, or_self, if_false, Nat.add_zero] at hd
        constructor
        · intro g2 h
          exact GRes.noConfusion h
        · intro g2 e h
          cases h
          refine ⟨?_, ?_, ?_⟩
          · rw [totalCards_discard]
            omega
          · rw [discard_players, updatePlayer_players_length]
          · rfl

theorem hacRun_conserve (o : Oracles) (ho : OraclesOK o) : ∀ fuel : Nat,
    (∀ (g : Game) (i : Nat) (card : Card), i < g.players.length →
        card.ctype = .ActionCard →
        ActPost g (hacRun o fuel (.act g i card))) ∧
    (∀ (g : Game) (t k : Nat), t < g.players.length →
        LoopPost g (hacRun o fuel (.loop g t k))) := by
  intro fuel
  induction fuel with
  | zero =>
    constructor
    · intro g i card hi hcard
      simp only [hacRun]
      trivial
    · intro g t k ht
      simp only [hacRun]
      trivial
  | succ fuel ih =>
    obtain ⟨ihA, ihL⟩ := ih
    constructor
    · intro g i card hi hcard
      simp only [hacRun]
      rcases hAct : card.Action with _ | _ | _ <;> simp only [hAct]
      · -- Freeze
        have hf := handleFreeze_spec o ho g i card
        rcases hres : Game.handleFreezeCard o g i card with g2 | ⟨g2, e⟩ | _ <;>
          simp only [hres, ActPost]
        · exact hf.1 g2 hres
        · exact hf.2 g2 e hres
      · -- FlipThree
        rcases hct : o.chooseTarget g i .FlipThree with _ | t <;>
          simp only [hct]
        · simp only [ActPost]
          exact ⟨totalCards_discard g card, rfl, rfl⟩
        · have ht := ho.chooseTarget_lt g i .FlipThree t hct
          have hl := ihL g t 3 ht
          rcases hres : hacRun o fuel (.loop g t 3) with g1 | ⟨g1, e⟩ | _ <;>
            rw [hres] at hl <;> simp only [hres, LoopPost] at hl ⊢ <;>
            simp only [ActPost]
          · obtain ⟨h1, h2, h3⟩ := hl
            refine ⟨?_, ?_, ?_⟩
            · rw [totalCards_discard, h1]
            · rw [discard_players, h2]
            · rw [discard_OriginalTotal, h3]
          · exact hl
      · -- SecondChance
        have hf := handleSC_spec o ho g i card hi hcard
        rcases hres : Game.handleSecondChanceCard o g i card
            with g2 | ⟨g2, e⟩ | _ <;> simp only [hres, ActPost]
        · exact hf.1 g2 hres
        · exact hf.2 g2 e hres
    · intro g t k ht
      cases k with
      | zero =>
        simp only [hacRun, LoopPost]
        exact ⟨rfl, rfl, rfl⟩
      | succ k =>
        simp only [hacRun]
        by_cases hAct : (g.player t).IsActive = true
        · rw [if_pos hAct]
          rcases hdraw : Game.drawCard o g with _ | ⟨c, g1⟩ <;>
            simp only [hdraw]
          · simp only [LoopPost]
          · obtain ⟨hdt, hdp, hdOT⟩ := drawCard_some o ho g c g1 hdraw
            have ht1 : t < g1.players.length := by
              rw [hdp]
              exact ht
            by_cases hIsA : c.IsActionCard = true
            · rw [if_pos hIsA]
              have ha := ihA g1 t c ht1 ((IsActionCard_iff c).mp hIsA)
              rcases hres : hacRun o fuel (.act g1 t c)
                  with g2 | ⟨g2, e⟩ | _ <;>
                rw [hres] at ha <;> simp only [ActPost] at ha <;>
                simp only [hres]
              · obtain ⟨ha1, ha2, ha3⟩ := ha
                have ht2 : t < g2.players.length := by
                  rw [ha2]
                  exact ht1
                have hl := ihL g2 t k ht2
                rcases hres2 : hacRun o fuel (.loop g2 t k)
                    with g3 | ⟨g3, e⟩ | _ <;>
                  rw [hres2] at hl <;> simp only [LoopPost] at hl <;>
                  simp only [hres2, LoopPost]
                · obtain ⟨hl1, hl2, hl3⟩ := hl
                  refine ⟨by omega, by rw [hl2, ha2, hdp], by
                    rw [hl3, ha3, hdOT]⟩
                · obtain ⟨hl1, hl2, hl3⟩ := hl
                  exact ⟨by omega, by rw [hl2, ha2, hdp], by
                    rw [hl3, ha3, hdOT]⟩
              · obtain ⟨ha1, ha2, ha3⟩ := ha
                by_cases he : e = GErr.flip7
                · rw [if_pos he]
                  simp only [LoopPost]
                  obtain ⟨he1, he2, he3⟩ := endRoundForFlip7_spec g2 t
                  refine ⟨by omega, by rw [he2, ha2, hdp], by
                    rw [he3, ha3, hdOT]⟩
                · rw [if_neg he]
                  simp only [LoopPost]
                  refine ⟨?_, by rw [discard_players, ha2, hdp], by
                    rw [discard_OriginalTotal, ha3, hdOT]⟩
                  rw [totalCards_discard]
                  omega
              · simp only [LoopPost]
            · rw [if_neg hIsA]
              rcases hadd : (g1.player t).AddCard c with _ | ⟨p1, r⟩ <;>
                simp only [hadd]
              · simp only [LoopPost]
              · by_cases hr : r = .ok
                · rw [if_pos hr]
                  subst hr
                  have hd := addCard_hand_length _ _ _ _ hadd
                  simp only [reduceCtorEq, or_false, if_true] at hd
                  have hupd := totalCards_updatePlayer g1 t p1 ht1
                  have ht2 : t < (g1.updatePlayer t p1).players.length := by
                    rw [updatePlayer_players_length]
                    exact ht1
                  have hl := ihL (g1.updatePlayer t p1) t k ht2
                  rcases hres2 : hacRun o fuel (.loop (g1.updatePlayer t p1) t k)
                      with g3 | ⟨g3, e⟩ | _ <;>
                    rw [hres2] at hl <;> simp only [LoopPost] at hl <;>
                    simp only [hres2, LoopPost]
                  · obtain ⟨hl1, hl2, hl3⟩ := hl
                    refine ⟨by omega, ?_, ?_⟩
                    · rw [hl2, updatePlayer_players_length, hdp]
                    · rw [hl3, updatePlayer_deck, hdOT]
                  · obtain ⟨hl1, hl2, hl3⟩ := hl
                    refine ⟨by omega, ?_, ?_⟩
                    · rw [hl2, updatePlayer_players_length, hdp]
                    · rw [hl3, updatePlayer_deck, hdOT]
                · rw [if_neg hr]
                  have hs := addCard_step g1 t c p1 r ht1 hadd hr
                  rcases hres2 : (g1.updatePlayer t p1).handleCardAddError t c r
                      with g2 | ⟨g2, e⟩ | _ <;> simp only [hres2, LoopPost]
                  · obtain ⟨hs1, hs2, hs3⟩ := hs.1 g2 hres2
                    exact ⟨by omega, by rw [hs2, hdp], by rw [hs3, hdOT]⟩
                  · obtain ⟨-, hscd⟩ := hs.2 g2 e hres2
                    exact absurd hscd
                      (addCard_not_scDup _ _ _ _ (by simpa using hIsA) hadd)
        · rw [if_neg hAct]
          simp only [LoopPost]
          exact ⟨rfl, rfl, rfl⟩

theorem playerHit_conserve (o : Oracles) (ho : OraclesOK o) (fuel : Nat)
    (g : Game) (i : Nat) (hi : i < g.players.length) (g2 : Game)
    (h : Game.playerHit o fuel g i = .ok g2) : Peq g g2 := by
  unfold Game.playerHit at h
  rcases hdraw : Game.drawCard o g with _ | ⟨card, g1⟩ <;>
    simp only [hdraw] at h
  · exact GRes.noConfusion h
  · obtain ⟨hdt, hdp, hdOT⟩ := drawCard_some o ho g card g1 hdraw
    have hi1 : i < g1.players.length := by
      rw [hdp]
      exact hi
    by_cases hIsA : card.IsActionCard = true
    · rw [if_pos hIsA] at h
      have ha := (hacRun_conserve o ho fuel).1 g1 i card hi1
        ((IsActionCard_iff card).mp hIsA)
      rw [h] at ha
      simp only [ActPost] at ha
      obtain ⟨ha1, ha2, ha3⟩ := ha
      exact ⟨by omega, by rw [ha2, hdp], by rw [ha3, hdOT]⟩
    · rw [if_neg hIsA] at h
      rcases hadd : (g1.player i).AddCard card with _ | ⟨p1, r⟩ <;>
        simp only [hadd] at h
      · exact GRes.noConfusion h
      · by_cases hr : r = .ok
        · rw [if_pos hr] at h
          subst hr
          cases h
          have hd := addCard_hand_length _ _ _ _ hadd
          simp only [reduceCtorEq, or_false, if_true] at hd
          have hupd := totalCards_updatePlayer g1 i p1 hi1
          refine ⟨by omega, ?_, ?_⟩
          · rw [updatePlayer_players_length, hdp]
          · rw [updatePlayer_deck, hdOT]
        · rw [if_neg hr] at h
          have hs := addCard_step g1 i card p1 r hi1 hadd hr
          obtain ⟨hs1, hs2, hs3⟩ := hs.1 g2 h
          exact ⟨by omega, by rw [hs2, hdp], by rw [hs3, hdOT]⟩

theorem playerStay_conserve (g : Game) (i : Nat)
    (hi : i < g.players.length) (g2 : Game)
    (h : Game.playerStay g i = some g2) : Peq g g2 := by
  unfold Game.playerStay at h
  rcases hstay : (g.player i).Stay with _ | p1 <;> simp only [hstay] at h
  · exact Option.noConfusion h
  · simp only [Option.some.injEq] at h
    rw [← h]
    have hhand := Stay_hand _ _ hstay
    have hupd := totalCards_updatePlayer g i p1 hi
    exact ⟨by omega, updatePlayer_players_length g i p1, rfl⟩

theorem reset_players_sum (l : List BasePlayer) :
    (((l.map BasePlayer.ResetForNewRound).map Prod.fst).map
      fun p => p.GetHand.length).sum = 0 := by
  induction l with
  | nil => rfl
  | cons hd tl ih =>
    simp only [List.map_cons, List.sum_cons, ih]
    rfl

theorem reset_discard_sum (l : List BasePlayer) :
    ((l.map BasePlayer.ResetForNewRound).map Prod.snd).flatten.length
      = (l.map fun p => p.GetHand.length).sum := by
  induction l with
  | nil => rfl
  | cons hd tl ih =>
    simp only [List.map_cons, List.flatten_cons, List.length_append, ih,
      List.sum_cons]
    rfl

theorem resetAllPlayers_spec (g : Game) :
    g.resetAllPlayers.totalCards = g.totalCards ∧
    g.resetAllPlayers.players.length = g.players.length ∧
    g.resetAllPlayers.deck.OriginalTotal = g.deck.OriginalTotal := by
  refine ⟨?_, ?_, rfl⟩
  · unfold Game.resetAllPlayers Game.totalCards
    simp only
    rw [reset_players_sum g.players]
    rw [List.length_append, reset_discard_sum g.players]
    omega
  · unfold Game.resetAllPlayers
    simp

theorem nextRound_eq (g : Game) :
    g.nextRound =
      if ({ g with
            round := g.round + 1,
            dealerIdx := (g.dealerIdx + 1) % g.players.length }
          : Game).resetAllPlayers.totalCards ≠ g.deck.OriginalTotal then
        none
      else
        some ({ g with
            round := g.round + 1,
            dealerIdx := (g.dealerIdx + 1) % g.players.length }
          : Game).resetAllPlayers := rfl

theorem nextRound_spec (g : Game) :
    (∀ g2, g.nextRound = some g2 → Peq g g2) ∧
    (g.totalCards ≠ g.deck.OriginalTotal → g.nextRound = none) := by
  have hr := resetAllPlayers_spec
    ({ g with
        round := g.round + 1,
        dealerIdx := (g.dealerIdx + 1) % g.players.length } : Game)
  have htc : ({ g with
      round := g.round + 1,
      dealerIdx := (g.dealerIdx + 1) % g.players.length }
      : Game).totalCards = g.totalCards := rfl
  constructor
  · intro g2 h
    rw [nextRound_eq] at h
    split at h
    · exact Option.noConfusion h
    · simp only [Option.some.injEq] at h
      rw [← h]
      exact ⟨by rw [hr.1, htc], by rw [hr.2.1], by rw [hr.2.2]⟩
  · intro hne
    rw [nextRound_eq]
    rw [if_pos (by rw [hr.1, htc]; exact hne)]

theorem init_players_sum (names : List String) :
    ((names.map BasePlayer.Init).map fun p => p.GetHand.length).sum = 0 := by
  induction names with
  | nil => rfl
  | cons hd tl ih =>
    simp only [List.map_cons, List.sum_cons, ih]
    rfl

theorem NewGameWith_spec (o : Oracles) (names : List String)
    (hs : ShuffleOK o.shuffle) :
    (NewGameWith o names).totalCards = 94 ∧
    (NewGameWith o names).deck.OriginalTotal = 94 := by
  unfold NewGameWith Game.totalCards NewDeck
  simp only
  have hlen : (o.shuffle createCards).length = createCards.length :=
    (hs createCards).length_eq
  have h94 : createCards.length = 94 := by decide
  rw [init_players_sum]
  constructor
  · simp only [List.length_nil]
    omega
  · rw [hlen, h94]

theorem reachable_conservation (o : Oracles) (ho : OraclesOK o) :
    ∀ g : Game, Reachable o g →
      g.totalCards = 94 ∧ g.deck.OriginalTotal = 94 := by
  intro g h
  induction h with
  | init names => exact NewGameWith_spec o names ho.shuffle_perm
  | hit i fuel hre hi hok ih =>
    obtain ⟨h1, h2, h3⟩ := playerHit_conserve o ho fuel _ i hi _ hok
    exact ⟨by rw [h1, ih.1], by rw [h3, ih.2]⟩
  | stay i hre hi hs ih =>
    obtain ⟨h1, h2, h3⟩ := playerStay_conserve _ i hi _ hs
    exact ⟨by rw [h1, ih.1], by rw [h3, ih.2]⟩
  | next hre hn ih =>
    obtain ⟨h1, h2, h3⟩ := (nextRound_spec _).1 _ hn
    exact ⟨by rw [h1, ih.1], by rw [h3, ih.2]⟩

/-- C1: in every reachable engine state (after every draw, discard, bust,
Flip-7 resolution including recursive Flip-Three cascades, and round
reset) the draw pile, discard pile, and all hands together hold exactly
94 cards; and whenever the recounted total diverges from the recorded
original, `nextRound` panics (the fatal `CardConservationViolation`)
instead of continuing. -/
theorem card_conservation :
    (∀ (o : Oracles) (g : Game), OraclesOK o → Reachable o g →
        g.totalCards = 94 ∧ g.deck.OriginalTotal = 94) ∧
    (∀ g : Game, g.totalCards ≠ g.deck.OriginalTotal →
        g.nextRound = none) := by
  constructor
  · intro o g ho hr
    exact reachable_conservation o ho g hr
  · intro g hne
    exact (nextRound_spec g).2 hne

theorem witnessOraclesOK : OraclesOK witnessOracles := by
  refine ⟨fun l => List.Perm.refl l, ?_, ?_⟩
  · intro g i a t h
    unfold witnessOracles at h
    simp only at h
    split at h
    · simp only [Option.some.injEq] at h
      omega
    · exact Option.noConfusion h
  · intro g i a t h
    unfold witnessOracles at h
    simp only at h
    split at h
    · simp only [Option.some.injEq] at h
      omega
    · exact Option.noConfusion h

/-- Witness for C1: a fresh two-player game carries 94 cards, and a game
whose total diverges from its recorded original panics in `nextRound`. -/
theorem card_conservation_witness :
    (NewGameWith witnessOracles ["A", "B"]).totalCards = 94 ∧
    Game.nextRound badGame = none :=
  ⟨(card_conservation.1 witnessOracles _ witnessOraclesOK
      (Reachable.init ["A", "B"])).1,
   card_conservation.2 badGame (by decide)⟩

end Flip7
